import Mathlib

/-!
Verification of the dataset-splitting utility `split_data.py` (functions
`filter_and_prepend_path` and `split_json_data`).  JSON documents are embedded
as an inductive value type, Python dictionaries as ordered association lists,
and the fallible parts of the pipeline (attribute errors, key errors) as
`Option`-valued functions.  The third-party splitting routine
`sklearn.model_selection.train_test_split` is not part of this repository's
sources and is modelled from the specification (§4.3, §9).
-/

set_option autoImplicit false

namespace SplitData

/-- A JSON value, as produced by `json.load`.  Numbers are modelled as
integers (no claim concerns non-integral numbers); objects are ordered
association lists, matching Python's insertion-ordered `dict`. -/
inductive JValue where
  | null
  | bool (b : Bool)
  | num (n : Int)
  | str (s : String)
  | arr (xs : List JValue)
  | obj (fs : List (String × JValue))


/-- First binding of a key in an ordered association list: Python `dict`
lookup (keys are unique in a `dict`, so first = only). -/
def lookupField : List (String × JValue) → String → Option JValue
  | [], _ => none
  | (k, v) :: fs, key => if k = key then some v else lookupField fs key

/-- Python `d.get(key)` on a value.  Returns `none` when the value is not a
dict (`AttributeError` in the source); otherwise `some` of the optional
binding. -/
def dictGet : JValue → String → Option (Option JValue)
  | JValue.obj fs, key => some (lookupField fs key)
  | _, _ => none

/-- Python `d[key] = v` on a dict's binding list: replace the first binding
of `key` in place (insertion order preserved), or append if absent. -/
def setFieldList : List (String × JValue) → String → JValue → List (String × JValue)
  | [], key, v => [(key, v)]
  | (k, w) :: fs, key, v =>
    if k = key then (k, v) :: fs else (k, w) :: setFieldList fs key v

/-- Python `item[key] = v`.  Only meaningful on objects; on other values the
source would raise, and the pipeline never reaches that case. -/
def setItem : JValue → String → JValue → JValue
  | JValue.obj fs, key, v => JValue.obj (setFieldList fs key v)
  | other, _, _ => other

/-- Python `str.startswith`, on the character data of the strings. -/
def hasPfx : List Char → List Char → Bool
  | _, [] => true
  | [], _ :: _ => false
  | c :: cs, d :: ds => c = d && hasPfx cs ds

/-- The test `s.startswith(p)` of the source, via the strings' data. -/
def strStarts (s p : String) : Bool := hasPfx s.data p.data

/-- The filter predicate `item.get("path", "").startswith(filter_prefix)` of
`filter_and_prepend_path` (line 19 of `split_data.py`).  `none` models an
uncaught `AttributeError`: the item is not a dict, or its `path` value is not
a string. -/
def pathStarts (item : JValue) (pfx : String) : Option Bool :=
  match dictGet item "path" with
  | none => none
  | some ov =>
    match ov.getD (JValue.str "") with
    | JValue.str s => some (strStarts s pfx)
    | _ => none

/-- The list comprehension of lines 18–20 of `split_data.py`: keep the items
whose `path` (defaulting to the empty string) starts with the prefix.
`none` propagates an uncaught exception from the predicate. -/
def filterItems : List JValue → String → Option (List JValue)
  | [], _ => some []
  | item :: rest, pfx =>
    match pathStarts item pfx, filterItems rest pfx with
    | some b, some tail => some (if b then item :: tail else tail)
    | _, _ => none

/-- One iteration of the rewrite loop, line 23 of `split_data.py`:
`item["path"] = prepend_path + item["path"]`.  `none` models `KeyError`
(no `path` key) or a type error (non-dict item, non-string `path`). -/
def prependOne (pre : String) (item : JValue) : Option JValue :=
  match dictGet item "path" with
  | none => none
  | some ov =>
    match ov with
    | some (JValue.str s) => some (setItem item "path" (JValue.str (pre ++ s)))
    | _ => none

/-- The rewrite loop of lines 22–24 of `split_data.py`, over the filtered
items in order. -/
def prependItems (pre : String) : List JValue → Option (List JValue)
  | [] => some []
  | item :: rest =>
    match prependOne pre item, prependItems pre rest with
    | some item2, some tail => some (item2 :: tail)
    | _, _ => none

/-- `filter_and_prepend_path(annotations, filter_prefix, prepend_path)`
(lines 6–25 of `split_data.py`): filter by path prefix, then prepend to each
retained item's path.  `none` models an uncaught exception. -/
def filter_and_prepend_path (items : List JValue) (pfx pre : String) :
    Option (List JValue) :=
  match filterItems items pfx with
  | none => none
  | some filtered => prependItems pre filtered

/-- Total description of the path rewrite on an item carrying a string
`path`: replace the `path` binding by the prepended string.  On any other
item (where the source would raise) the item is returned unchanged; the
theorems only apply it where `prependOne` succeeds. -/
def rewriteRec (pre : String) (i : JValue) : JValue :=
  match i with
  | JValue.obj gs =>
    match lookupField gs "path" with
    | some (JValue.str s) =>
      JValue.obj (setFieldList gs "path" (JValue.str (pre ++ s)))
    | _ => JValue.obj gs
  | other => other

/-- Boolean form of the retention predicate of the filter stage (an item
whose predicate raises is treated as rejected; the theorems using this form
carry the success of the whole stage as a hypothesis, under which the two
agree). -/
def passesB (pfx : String) (i : JValue) : Bool :=
  (pathStarts i pfx).getD false

/-- Modelled from the spec: `sklearn.model_selection.train_test_split` with a
`train_size` fraction is not part of this repository's sources.  Per §4.3 the
split is a seeded pseudo-random partition whose first part has
`⌊train_fraction · n⌋` elements (§9: floor-based train size, stable shuffle
driven by the seed); the seeded shuffle is modelled as a rotation by the
seed, a deterministic seed-driven permutation, the exact shuffle policy being
left open by §9. -/
def train_test_split {α : Type} (l : List α) (trainSize : ℚ) (seed : Nat) :
    List α × List α :=
  let sh := l.rotate seed
  let nTrain := (Int.floor (trainSize * (l.length : ℚ))).toNat
  (sh.take nTrain, sh.drop nTrain)

/-- Modelled from the spec: the second call of `split_json_data` passes
`test_size=0.5`; per §4.3 this partitions the remainder evenly, the second
part receiving `⌈test_fraction · n⌉` elements (so for odd sizes the second
output gets the extra element), with the same seed-driven shuffle. -/
def train_test_split_ts {α : Type} (l : List α) (testSize : ℚ) (seed : Nat) :
    List α × List α :=
  let sh := l.rotate seed
  let nTest := (Int.ceil (testSize * (l.length : ℚ))).toNat
  (sh.take (l.length - nTest), sh.drop (l.length - nTest))

/-- The splitting stage of `split_json_data` (lines 67 and 70 of
`split_data.py`): first split off the train part by `train_size`, then split
the remainder 50/50 into test and valid. -/
def splitStage (l : List JValue) (trainSize : ℚ) (seed : Nat) :
    List JValue × List JValue × List JValue :=
  let p1 := train_test_split l trainSize seed
  let p2 := train_test_split_ts p1.2 (1/2 : ℚ) seed
  (p1.1, p2.1, p2.2)

/-- The contents of the input file as seen by lines 44–52 of
`split_data.py`: the file may be missing (`FileNotFoundError`), hold bytes
that are not valid JSON (`json.JSONDecodeError`), or parse to a JSON value. -/
inductive InputFile where
  | missing
  | notJSON
  | json (v : JValue)


/-- Python truthiness of a JSON value, for `if not annotations:` (line 55). -/
def JValue.truthy : JValue → Bool
  | JValue.null => false
  | JValue.bool b => b
  | JValue.num n => n != 0
  | JValue.str s => s != ""
  | JValue.arr xs => !xs.isEmpty
  | JValue.obj fs => !fs.isEmpty

/-- Observable result of one run of `split_json_data`: the messages printed,
the files written as (path, contents) pairs in order, and whether the run
ended in an uncaught exception instead of returning. -/
structure RunResult where
  printed : List String
  files : List (String × JValue)
  crashed : Bool


/-- Message of line 48 of `split_data.py`. -/
def msgFileNotFound (p : String) : String :=
  "Error: The file " ++ p ++ " was not found."

/-- Message of line 51 of `split_data.py`. -/
def msgDecode (p : String) : String :=
  "Error: Could not decode JSON from the file " ++ p ++ "."

/-- Message of line 56 of `split_data.py`. -/
def msgNoAnn : String :=
  "No 'annotation' key found in the JSON file or it is empty."

/-- Message of line 63 of `split_data.py`. -/
def msgEmptyFilter : String :=
  "No annotations remaining after filtering. No output files will be created."

/-- Message of lines 85–86 of `split_data.py`. -/
def msgSuccess (a b c : Nat) : String :=
  "Successfully filtered, modified, and split the data into " ++ toString a ++
    " training samples, " ++ toString b ++ " testing samples, and " ++
    toString c ++ " validation samples."

/-- Outcome of the pipeline's control flow, before the presentation of
messages and file writes.  The branches correspond one-to-one to the early
returns of `split_json_data` (lines 47–64), an uncaught exception, and the
successful fall-through to the writes. -/
inductive CoreResult where
  | failFileNotFound
  | failDecode
  | failNoAnn
  | failEmptyFilter
  | crash
  | ok (t e v : List JValue)


/-- Control flow of `split_json_data` (lines 44–75 of `split_data.py`):
load, extract `data.get("annotation", [])` (an `AttributeError`, hence a
crash, when the document is not an object), check truthiness, filter and
prepend, check for emptiness after filtering, then split. -/
def pipelineCore (fsin : InputFile) (pfx pre : String) (ts : ℚ) (rs : Nat) :
    CoreResult :=
  match fsin with
  | InputFile.missing => CoreResult.failFileNotFound
  | InputFile.notJSON => CoreResult.failDecode
  | InputFile.json data =>
    match dictGet data "annotation" with
    | none => CoreResult.crash
    | some ov =>
      let anns := ov.getD (JValue.arr [])
      if anns.truthy then
        match anns with
        | JValue.arr items =>
          match filter_and_prepend_path items pfx pre with
          | none => CoreResult.crash
          | some modified =>
            if modified.isEmpty then CoreResult.failEmptyFilter
            else
              let s := splitStage modified ts rs
              CoreResult.ok s.1 s.2.1 s.2.2
        | _ => CoreResult.crash
      else CoreResult.failNoAnn

/-- The document `{"annotation": l}` written to each output file
(lines 73–75 of `split_data.py`). -/
def wrapAnn (l : List JValue) : JValue :=
  JValue.obj [("annotation", JValue.arr l)]

/-- `split_json_data` (lines 28–86 of `split_data.py`): run the pipeline and
present its outcome as printed messages and written files.  On each early
return exactly one diagnostic is printed and no file is written; on success
the three files are written (lines 78–83) and the summary line is printed. -/
def split_json_data (input_json_path train_output_path test_output_path
    valid_output_path : String) (fsin : InputFile) (pfx pre : String)
    (ts : ℚ) (rs : Nat) : RunResult :=
  match pipelineCore fsin pfx pre ts rs with
  | CoreResult.failFileNotFound => ⟨[msgFileNotFound input_json_path], [], false⟩
  | CoreResult.failDecode => ⟨[msgDecode input_json_path], [], false⟩
  | CoreResult.failNoAnn => ⟨[msgNoAnn], [], false⟩
  | CoreResult.failEmptyFilter => ⟨[msgEmptyFilter], [], false⟩
  | CoreResult.crash => ⟨[], [], true⟩
  | CoreResult.ok t e v =>
    ⟨[msgSuccess t.length e.length v.length],
     [(train_output_path, wrapAnn t), (test_output_path, wrapAnn e),
      (valid_output_path, wrapAnn v)], false⟩

/-! Helper lemmas about the filter stage. -/

/-- On success, the filter stage returns exactly `List.filter` of the
retention predicate. -/
theorem filterItems_eq_some {pfx : String} :
    ∀ {items out : List JValue}, filterItems items pfx = some out →
      out = items.filter (passesB pfx) := by
  intro items
  induction items with
  | nil =>
    intro out h
    simp only [filterItems, Option.some.injEq] at h
    simp [← h]
  | cons i rest ih =>
    intro out h
    rw [filterItems] at h
    cases hb : pathStarts i pfx with
    | none => rw [hb] at h; exact absurd h (by simp)
    | some b =>
      rw [hb] at h
      cases ht : filterItems rest pfx with
      | none => rw [ht] at h; exact absurd h (by simp)
      | some tail =>
        rw [ht] at h
        simp only [Option.some.injEq] at h
        subst h
        have hp : passesB pfx i = b := by simp [passesB, hb]
        rw [List.filter_cons, hp, ← ih ht]

/-- On success of the filter stage, every retained item's predicate
evaluated to `some true`. -/
theorem filterItems_pred {pfx : String} {items out : List JValue}
    (h : filterItems items pfx = some out) :
    ∀ i ∈ out, pathStarts i pfx = some true := by
  intro i hi
  rw [filterItems_eq_some h] at hi
  have hmem := List.of_mem_filter hi
  unfold passesB at hmem
  cases hb : pathStarts i pfx with
  | none => exact absurd hmem (by rw [hb]; simp)
  | some b =>
    have hbt : b = true := by rw [hb] at hmem; simpa using hmem
    rw [hbt]

/-! Helper lemmas about the rewrite stage. -/

/-- Shape of a successful single rewrite: the item is a dict with a string
`path`, and the result replaces that binding by the prepended string. -/
theorem prependOne_eq_some {pre : String} {i o : JValue}
    (h : prependOne pre i = some o) :
    ∃ gs s, i = JValue.obj gs ∧ lookupField gs "path" = some (JValue.str s) ∧
      o = JValue.obj (setFieldList gs "path" (JValue.str (pre ++ s))) := by
  cases i <;> simp only [prependOne, dictGet] at h
  case obj gs =>
    cases hl : lookupField gs "path" with
    | none => rw [hl] at h; exact absurd h (by simp)
    | some v =>
      rw [hl] at h
      cases v <;> simp only [setItem, Option.some.injEq] at h
      case str s => exact ⟨gs, s, rfl, hl, h.symm⟩
      all_goals exact absurd h (by simp)
  all_goals exact absurd h (by simp)

/-- A successful single rewrite agrees with the total description
`rewriteRec`. -/
theorem prependOne_eq_rewriteRec {pre : String} {i o : JValue}
    (h : prependOne pre i = some o) : o = rewriteRec pre i := by
  obtain ⟨gs, s, hi, hl, ho⟩ := prependOne_eq_some h
  subst hi
  rw [ho, rewriteRec, hl]

/-- On success, the rewrite loop maps `rewriteRec` over the list. -/
theorem prependItems_eq_map {pre : String} :
    ∀ {l out : List JValue}, prependItems pre l = some out →
      out = l.map (rewriteRec pre) := by
  intro l
  induction l with
  | nil =>
    intro out h
    simp only [prependItems, Option.some.injEq] at h
    simp [← h]
  | cons i rest ih =>
    intro out h
    rw [prependItems] at h
    cases ho : prependOne pre i with
    | none => rw [ho] at h; exact absurd h (by simp)
    | some o =>
      rw [ho] at h
      cases ht : prependItems pre rest with
      | none => rw [ht] at h; exact absurd h (by simp)
      | some tail =>
        rw [ht] at h
        simp only [Option.some.injEq] at h
        subst h
        rw [List.map_cons, ← ih ht, prependOne_eq_rewriteRec ho]

/-- Every element of a successful rewrite-loop output is the successful
rewrite of some element of its input. -/
theorem prependItems_sound {pre : String} :
    ∀ {l out : List JValue}, prependItems pre l = some out →
      ∀ o ∈ out, ∃ i, i ∈ l ∧ prependOne pre i = some o := by
  intro l
  induction l with
  | nil =>
    intro out h
    simp only [prependItems, Option.some.injEq] at h
    simp [← h]
  | cons i rest ih =>
    intro out h
    rw [prependItems] at h
    cases ho : prependOne pre i with
    | none => rw [ho] at h; exact absurd h (by simp)
    | some o =>
      rw [ho] at h
      cases ht : prependItems pre rest with
      | none => rw [ht] at h; exact absurd h (by simp)
      | some tail =>
        rw [ht] at h
        simp only [Option.some.injEq] at h
        subst h
        intro x hx
        rcases List.mem_cons.mp hx with hx | hx
        · exact ⟨i, List.mem_cons_self i rest, hx ▸ ho⟩
        · obtain ⟨j, hj, hjo⟩ := ih ht x hx
          exact ⟨j, List.mem_cons_of_mem i hj, hjo⟩

/-! Frame lemmas for the in-place update of the `path` binding. -/

/-- Updating a key then reading it back yields the new value. -/
theorem lookupField_setFieldList_self :
    ∀ (gs : List (String × JValue)) (key : String) (v : JValue),
      lookupField (setFieldList gs key v) key = some v := by
  intro gs key v
  induction gs with
  | nil => simp [setFieldList, lookupField]
  | cons p rest ih =>
    obtain ⟨k, w⟩ := p
    by_cases hk : k = key
    · simp [setFieldList, hk, lookupField]
    · simp [setFieldList, hk, lookupField, ih]

/-- Updating one key leaves every other key's binding unchanged. -/
theorem lookupField_setFieldList_ne :
    ∀ (gs : List (String × JValue)) (key k : String) (v : JValue), k ≠ key →
      lookupField (setFieldList gs key v) k = lookupField gs k := by
  intro gs key k v hne
  induction gs with
  | nil =>
    have : ¬ key = k := fun h => hne h.symm
    simp [setFieldList, lookupField, this]
  | cons p rest ih =>
    obtain ⟨k0, w⟩ := p
    by_cases h0 : k0 = key
    · subst h0
      have : ¬ k0 = k := fun h => hne (h.symm.trans rfl)
      simp [setFieldList, lookupField, this]
    · by_cases h1 : k0 = k
      · subst h1; simp [setFieldList, h0, lookupField]
      · simp [setFieldList, h0, lookupField, h1, ih]

/-! Permutation and length lemmas for the spec-modelled splitter. -/

/-- The two parts of a single split recombine to a permutation of the
input. -/
theorem train_test_split_append {α : Type} (l : List α) (ts : ℚ) (seed : Nat) :
    List.Perm ((train_test_split l ts seed).1 ++ (train_test_split l ts seed).2) l := by
  show List.Perm ((l.rotate seed).take _ ++ (l.rotate seed).drop _) l
  rw [List.take_append_drop]
  exact List.rotate_perm l seed

/-- The two parts of a single test-size split recombine to a permutation of
the input. -/
theorem train_test_split_ts_append {α : Type} (l : List α) (ts : ℚ) (seed : Nat) :
    List.Perm ((train_test_split_ts l ts seed).1 ++ (train_test_split_ts l ts seed).2) l := by
  show List.Perm ((l.rotate seed).take _ ++ (l.rotate seed).drop _) l
  rw [List.take_append_drop]
  exact List.rotate_perm l seed

/-- The three outputs of the splitting stage recombine to a permutation of
its input. -/
theorem splitStage_perm (l : List JValue) (ts : ℚ) (rs : Nat) :
    List.Perm ((splitStage l ts rs).1 ++ (splitStage l ts rs).2.1 ++
      (splitStage l ts rs).2.2) l := by
  have h1 := train_test_split_append l ts rs
  have h2 := train_test_split_ts_append (train_test_split l ts rs).2 (1/2 : ℚ) rs
  show List.Perm ((train_test_split l ts rs).1 ++
    (train_test_split_ts (train_test_split l ts rs).2 (1/2 : ℚ) rs).1 ++
    (train_test_split_ts (train_test_split l ts rs).2 (1/2 : ℚ) rs).2) l
  rw [List.append_assoc]
  exact (h2.append_left _).trans h1

/-- Lengths of the two parts of a single split. -/
theorem train_test_split_lengths {α : Type} (l : List α) (ts : ℚ) (seed : Nat) :
    (train_test_split l ts seed).1.length
        = min ((Int.floor (ts * (l.length : ℚ))).toNat) l.length ∧
      (train_test_split l ts seed).2.length
        = l.length - (Int.floor (ts * (l.length : ℚ))).toNat := by
  constructor <;> simp [train_test_split]

/-- Lengths of the two parts of a single test-size split. -/
theorem train_test_split_ts_lengths {α : Type} (l : List α) (ts : ℚ) (seed : Nat) :
    (train_test_split_ts l ts seed).1.length
        = min (l.length - (Int.ceil (ts * (l.length : ℚ))).toNat) l.length ∧
      (train_test_split_ts l ts seed).2.length
        = l.length - (l.length - (Int.ceil (ts * (l.length : ℚ))).toNat) := by
  constructor <;> simp [train_test_split_ts]

/-- On success, `filter_and_prepend_path` is the filter of the retention
predicate followed by the map of the path rewrite. -/
theorem filter_and_prepend_eq {items out : List JValue} {pfx pre : String}
    (h : filter_and_prepend_path items pfx pre = some out) :
    out = (items.filter (passesB pfx)).map (rewriteRec pre) := by
  rw [filter_and_prepend_path] at h
  cases hf : filterItems items pfx with
  | none => rw [hf] at h; exact absurd h (by simp)
  | some filtered =>
    rw [hf] at h
    rw [prependItems_eq_map h, filterItems_eq_some hf]

/-- Every record of a successful `filter_and_prepend_path` output comes from
an input record that passed the filter and was rewritten. -/
theorem filter_and_prepend_sound {items out : List JValue} {pfx pre : String}
    (h : filter_and_prepend_path items pfx pre = some out) :
    ∀ o ∈ out, ∃ i, i ∈ items ∧ pathStarts i pfx = some true ∧
      prependOne pre i = some o := by
  rw [filter_and_prepend_path] at h
  cases hf : filterItems items pfx with
  | none => rw [hf] at h; exact absurd h (by simp)
  | some filtered =>
    rw [hf] at h
    intro o ho
    obtain ⟨i, hi, hio⟩ := prependItems_sound h o ho
    refine ⟨i, ?_, filterItems_pred hf i hi, hio⟩
    rw [filterItems_eq_some hf] at hi
    exact List.mem_of_mem_filter hi

/-- Shape of every record of a successful output: it is an input dict whose
string `path` started with the prefix, with that binding replaced by the
prepended string. -/
theorem filter_and_prepend_shape {items out : List JValue} {pfx pre : String}
    (h : filter_and_prepend_path items pfx pre = some out) :
    ∀ o ∈ out, ∃ gs s, JValue.obj gs ∈ items ∧
      lookupField gs "path" = some (JValue.str s) ∧ strStarts s pfx = true ∧
      o = JValue.obj (setFieldList gs "path" (JValue.str (pre ++ s))) := by
  intro o ho
  obtain ⟨i, hmem, hps, hpo⟩ := filter_and_prepend_sound h o ho
  obtain ⟨gs, s, hi, hl, hoeq⟩ := prependOne_eq_some hpo
  subst hi
  refine ⟨gs, s, hmem, hl, ?_, hoeq⟩
  rw [pathStarts] at hps
  simpa [dictGet, hl] using hps

/-- Membership in any output of the splitting stage implies membership in
its input. -/
theorem splitStage_mem {l : List JValue} {ts : ℚ} {rs : Nat} {x : JValue}
    (hx : x ∈ (splitStage l ts rs).1 ∨ x ∈ (splitStage l ts rs).2.1 ∨
      x ∈ (splitStage l ts rs).2.2) : x ∈ l := by
  have hp := splitStage_perm l ts rs
  have hx2 : x ∈ (splitStage l ts rs).1 ++ (splitStage l ts rs).2.1 ++
      (splitStage l ts rs).2.2 := by
    rcases hx with h | h | h <;> simp [List.mem_append, h]
  exact hp.mem_iff.mp hx2

/-! The claims. -/

/-- C1: for every non-empty list of filtered records reaching the splitting
stage of `split_json_data`, the sizes of the three outputs sum to the size
of the input, and the concatenation of the three outputs is a permutation
of the input: the outputs partition the input's occurrences (pairwise
disjoint by original position), their union is the input, and nothing is
duplicated or lost. -/
theorem claim_C1 (l : List JValue) (ts : ℚ) (rs : Nat) (_hne : l ≠ []) :
    (splitStage l ts rs).1.length + (splitStage l ts rs).2.1.length +
        (splitStage l ts rs).2.2.length = l.length ∧
      List.Perm ((splitStage l ts rs).1 ++ (splitStage l ts rs).2.1 ++
        (splitStage l ts rs).2.2) l := by
  have hp := splitStage_perm l ts rs
  refine ⟨?_, hp⟩
  have hlen := hp.length_eq
  simpa [List.length_append, Nat.add_assoc] using hlen

/-- Witness for C1: the conclusion at a concrete one-record input. -/
theorem claim_C1_witness :
    ([JValue.null] : List JValue) ≠ [] ∧
      ((splitStage [JValue.null] (4/5 : ℚ) 42).1.length +
          (splitStage [JValue.null] (4/5 : ℚ) 42).2.1.length +
          (splitStage [JValue.null] (4/5 : ℚ) 42).2.2.length = 1 ∧
        List.Perm ((splitStage [JValue.null] (4/5 : ℚ) 42).1 ++
          (splitStage [JValue.null] (4/5 : ℚ) 42).2.1 ++
          (splitStage [JValue.null] (4/5 : ℚ) 42).2.2) [JValue.null]) :=
  ⟨by simp, claim_C1 [JValue.null] (4/5 : ℚ) 42 (by simp)⟩

/-- C2: on success, `filter_and_prepend_path` returns exactly the records
whose `path` (defaulting to the empty string when absent) starts with the
filter prefix, in original relative order, each with its `path` binding
replaced by the plain concatenation of the prepend string and the original
path; and every record of the three split outputs arises from such a
retained record, so a record whose `path` does not start with the prefix is
the source of no record in any of the three output files. -/
theorem claim_C2 (items out : List JValue) (pfx pre : String)
    (h : filter_and_prepend_path items pfx pre = some out) :
    out = (items.filter (passesB pfx)).map (rewriteRec pre) ∧
      (∀ o ∈ out, ∃ gs s, JValue.obj gs ∈ items ∧
        lookupField gs "path" = some (JValue.str s) ∧ strStarts s pfx = true ∧
        o = JValue.obj (setFieldList gs "path" (JValue.str (pre ++ s)))) ∧
      ∀ (ts : ℚ) (rs : Nat) (x : JValue),
        (x ∈ (splitStage out ts rs).1 ∨ x ∈ (splitStage out ts rs).2.1 ∨
          x ∈ (splitStage out ts rs).2.2) →
        ∃ gs s, JValue.obj gs ∈ items ∧
          lookupField gs "path" = some (JValue.str s) ∧ strStarts s pfx = true ∧
          x = JValue.obj (setFieldList gs "path" (JValue.str (pre ++ s))) := by
  refine ⟨filter_and_prepend_eq h, filter_and_prepend_shape h, ?_⟩
  intro ts rs x hx
  exact filter_and_prepend_shape h x (splitStage_mem hx)

/-- Witness for C2 at a concrete two-record input, one passing and one
failing the filter. -/
theorem claim_C2_witness :
    filter_and_prepend_path
        [JValue.obj [("path", JValue.str "/L/a")], JValue.obj [("path", JValue.str "/x")]]
        "/L" "/r" = some [JValue.obj [("path", JValue.str "/r/L/a")]] ∧
      ([JValue.obj [("path", JValue.str "/r/L/a")]] : List JValue) =
          ((([JValue.obj [("path", JValue.str "/L/a")],
            JValue.obj [("path", JValue.str "/x")]] : List JValue).filter
              (passesB "/L")).map (rewriteRec "/r")) ∧
        (∀ o ∈ ([JValue.obj [("path", JValue.str "/r/L/a")]] : List JValue),
          ∃ gs s, JValue.obj gs ∈
              [JValue.obj [("path", JValue.str "/L/a")], JValue.obj [("path", JValue.str "/x")]] ∧
            lookupField gs "path" = some (JValue.str s) ∧ strStarts s "/L" = true ∧
            o = JValue.obj (setFieldList gs "path" (JValue.str ("/r" ++ s)))) ∧
        ∀ (ts : ℚ) (rs : Nat) (x : JValue),
          (x ∈ (splitStage [JValue.obj [("path", JValue.str "/r/L/a")]] ts rs).1 ∨
            x ∈ (splitStage [JValue.obj [("path", JValue.str "/r/L/a")]] ts rs).2.1 ∨
            x ∈ (splitStage [JValue.obj [("path", JValue.str "/r/L/a")]] ts rs).2.2) →
          ∃ gs s, JValue.obj gs ∈
              [JValue.obj [("path", JValue.str "/L/a")], JValue.obj [("path", JValue.str "/x")]] ∧
            lookupField gs "path" = some (JValue.str s) ∧ strStarts s "/L" = true ∧
            x = JValue.obj (setFieldList gs "path" (JValue.str ("/r" ++ s))) :=
  ⟨rfl, claim_C2 _ _ "/L" "/r" rfl⟩

/-- C3: determinism of the pipeline outputs: two runs on the same input
document with the same filter prefix, prepend path, train size and random
state write identical file contents (the same partition with the same
records), whatever the path arguments of the two runs. -/
theorem claim_C3 (ip1 tp1 ep1 vp1 ip2 tp2 ep2 vp2 : String) (fsin : InputFile)
    (pfx pre : String) (ts : ℚ) (rs : Nat) :
    (split_json_data ip1 tp1 ep1 vp1 fsin pfx pre ts rs).files.map Prod.snd =
      (split_json_data ip2 tp2 ep2 vp2 fsin pfx pre ts rs).files.map Prod.snd := by
  cases hc : pipelineCore fsin pfx pre ts rs <;> simp [split_json_data, hc]

/-- C4: each of the four handled failure conditions prints its diagnostic
message, returns without an exception, and writes no output file: a missing
input file, undecodable JSON, an absent `annotation` key or an empty
`annotation` list, and no record surviving the filter. -/
theorem claim_C4 :
    (∀ (ip tp ep vp pfx pre : String) (ts : ℚ) (rs : Nat),
        split_json_data ip tp ep vp InputFile.missing pfx pre ts rs =
          ⟨[msgFileNotFound ip], [], false⟩) ∧
      (∀ (ip tp ep vp pfx pre : String) (ts : ℚ) (rs : Nat),
        split_json_data ip tp ep vp InputFile.notJSON pfx pre ts rs =
          ⟨[msgDecode ip], [], false⟩) ∧
      (∀ (ip tp ep vp pfx pre : String) (ts : ℚ) (rs : Nat)
          (gs : List (String × JValue)),
        (lookupField gs "annotation" = none ∨
          lookupField gs "annotation" = some (JValue.arr [])) →
        split_json_data ip tp ep vp (InputFile.json (JValue.obj gs)) pfx pre ts rs =
          ⟨[msgNoAnn], [], false⟩) ∧
      ∀ (ip tp ep vp pfx pre : String) (ts : ℚ) (rs : Nat)
          (gs : List (String × JValue)) (items : List JValue),
        lookupField gs "annotation" = some (JValue.arr items) → items ≠ [] →
        filter_and_prepend_path items pfx pre = some [] →
        split_json_data ip tp ep vp (InputFile.json (JValue.obj gs)) pfx pre ts rs =
          ⟨[msgEmptyFilter], [], false⟩ := by
  refine ⟨fun _ _ _ _ _ _ _ _ => rfl, fun _ _ _ _ _ _ _ _ => rfl, ?_, ?_⟩
  · intro ip tp ep vp pfx pre ts rs gs hg
    have hcore : pipelineCore (InputFile.json (JValue.obj gs)) pfx pre ts rs =
        CoreResult.failNoAnn := by
      rcases hg with hg | hg <;> simp [pipelineCore, dictGet, hg, JValue.truthy]
    simp [split_json_data, hcore]
  · intro ip tp ep vp pfx pre ts rs gs items hg hne hf
    have hie : items.isEmpty = false := by
      cases items with
      | nil => exact absurd rfl hne
      | cons a as => rfl
    have hcore : pipelineCore (InputFile.json (JValue.obj gs)) pfx pre ts rs =
        CoreResult.failEmptyFilter := by
      simp [pipelineCore, dictGet, hg, JValue.truthy, hie, hf]
    simp [split_json_data, hcore]

/-- Witness for C4: the two hypothesis-carrying conditions at concrete
inputs (no `annotation` key; one record that fails the filter). -/
theorem claim_C4_witness :
    split_json_data "in" "t" "e" "v" (InputFile.json (JValue.obj [])) "/L" ""
        (4/5 : ℚ) 42 = ⟨[msgNoAnn], [], false⟩ ∧
      split_json_data "in" "t" "e" "v"
          (InputFile.json (JValue.obj [("annotation",
            JValue.arr [JValue.obj [("path", JValue.str "/x")]])])) "/L" ""
          (4/5 : ℚ) 42 = ⟨[msgEmptyFilter], [], false⟩ :=
  ⟨claim_C4.2.2.1 "in" "t" "e" "v" "/L" "" (4/5 : ℚ) 42 [] (Or.inl rfl),
   claim_C4.2.2.2 "in" "t" "e" "v" "/L" "" (4/5 : ℚ) 42 _ _ rfl (by simp) rfl⟩

/-- C5: when exactly one record survives filtering and the train size is
0.8, `split_json_data` completes: the split degenerates to a single subset
holding that record (the validation set under the spec's rounding policy),
the other two subsets are empty, and the three files are written. -/
theorem claim_C5 (ip tp ep vp : String) (items : List JValue) (pfx pre : String)
    (rs : Nat) (r : JValue)
    (h : filter_and_prepend_path items pfx pre = some [r]) :
    split_json_data ip tp ep vp
        (InputFile.json (JValue.obj [("annotation", JValue.arr items)])) pfx pre
        (4/5 : ℚ) rs =
      ⟨[msgSuccess 0 0 1],
       [(tp, wrapAnn []), (ep, wrapAnn []), (vp, wrapAnn [r])], false⟩ := by
  have hne : items ≠ [] := by
    intro he
    subst he
    rw [show filter_and_prepend_path [] pfx pre = some [] from rfl] at h
    simp at h
  have hie : items.isEmpty = false := by
    cases items with
    | nil => exact absurd rfl hne
    | cons a as => rfl
  have h1 : train_test_split [r] (4/5 : ℚ) rs = ([], [r]) := by
    rw [train_test_split]
    norm_num [List.rotate_singleton]
  have hc1 : Int.ceil ((1/2 : ℚ)) = 1 := by
    rw [Int.ceil_eq_iff]
    norm_num
  have h2 : train_test_split_ts [r] (1/2 : ℚ) rs = ([], [r]) := by
    rw [train_test_split_ts]
    norm_num [List.rotate_singleton, hc1]
  have hsplit : splitStage [r] (4/5 : ℚ) rs = ([], [], [r]) := by
    simp only [splitStage, h1, h2]
  have hcore : pipelineCore
      (InputFile.json (JValue.obj [("annotation", JValue.arr items)])) pfx pre
      (4/5 : ℚ) rs = CoreResult.ok [] [] [r] := by
    simp [pipelineCore, dictGet, lookupField, JValue.truthy, hie, h, hsplit]
  simp [split_json_data, hcore]

/-- Witness for C5 at a concrete single-record input. -/
theorem claim_C5_witness :
    filter_and_prepend_path [JValue.obj [("path", JValue.str "/L/a")]] "/L" "" =
        some [JValue.obj [("path", JValue.str "/L/a")]] ∧
      split_json_data "in" "t" "e" "v"
          (InputFile.json (JValue.obj [("annotation",
            JValue.arr [JValue.obj [("path", JValue.str "/L/a")]])])) "/L" ""
          (4/5 : ℚ) 42 =
        ⟨[msgSuccess 0 0 1],
         [("t", wrapAnn []), ("e", wrapAnn []),
          ("v", wrapAnn [JValue.obj [("path", JValue.str "/L/a")]])], false⟩ :=
  ⟨rfl, claim_C5 "in" "t" "e" "v" _ "/L" "" 42 _ rfl⟩

/-- C6: with 100 filtered records and train size 0.8, the splitting stage
produces 80 train, 10 test and 10 valid records, and re-running with the
same seed reproduces the identical partition. -/
theorem claim_C6 (l : List JValue) (rs : Nat) (h : l.length = 100) :
    (splitStage l (4/5 : ℚ) rs).1.length = 80 ∧
      (splitStage l (4/5 : ℚ) rs).2.1.length = 10 ∧
      (splitStage l (4/5 : ℚ) rs).2.2.length = 10 ∧
      splitStage l (4/5 : ℚ) rs = splitStage l (4/5 : ℚ) rs := by
  have hfl : (Int.floor ((4/5 : ℚ) * ((l.length : Nat) : ℚ))).toNat = 80 := by
    rw [h]
    have h80 : Int.floor ((4/5 : ℚ) * ((100 : Nat) : ℚ)) = 80 := by norm_num
    rw [h80]
    decide
  have ht1 : (train_test_split l (4/5 : ℚ) rs).1.length = 80 := by
    rw [(train_test_split_lengths l (4/5 : ℚ) rs).1, hfl, h]
    decide
  have ht2 : (train_test_split l (4/5 : ℚ) rs).2.length = 20 := by
    rw [(train_test_split_lengths l (4/5 : ℚ) rs).2, hfl, h]
  have hcl : (Int.ceil ((1/2 : ℚ) *
      (((train_test_split l (4/5 : ℚ) rs).2.length : Nat) : ℚ))).toNat = 10 := by
    rw [ht2]
    have h10 : Int.ceil ((1/2 : ℚ) * ((20 : Nat) : ℚ)) = 10 := by
      rw [Int.ceil_eq_iff]
      norm_num
    rw [h10]
    decide
  have he1 : (train_test_split_ts (train_test_split l (4/5 : ℚ) rs).2
      (1/2 : ℚ) rs).1.length = 10 := by
    rw [(train_test_split_ts_lengths (train_test_split l (4/5 : ℚ) rs).2
      (1/2 : ℚ) rs).1, hcl, ht2]
    decide
  have he2 : (train_test_split_ts (train_test_split l (4/5 : ℚ) rs).2
      (1/2 : ℚ) rs).2.length = 10 := by
    rw [(train_test_split_ts_lengths (train_test_split l (4/5 : ℚ) rs).2
      (1/2 : ℚ) rs).2, hcl, ht2]
  exact ⟨ht1, he1, he2, rfl⟩

/-- Witness for C6 at a concrete 100-record input. -/
theorem claim_C6_witness :
    (List.replicate 100 JValue.null).length = 100 ∧
      ((splitStage (List.replicate 100 JValue.null) (4/5 : ℚ) 42).1.length = 80 ∧
        (splitStage (List.replicate 100 JValue.null) (4/5 : ℚ) 42).2.1.length = 10 ∧
        (splitStage (List.replicate 100 JValue.null) (4/5 : ℚ) 42).2.2.length = 10 ∧
        splitStage (List.replicate 100 JValue.null) (4/5 : ℚ) 42 =
          splitStage (List.replicate 100 JValue.null) (4/5 : ℚ) 42) :=
  ⟨by simp, claim_C6 (List.replicate 100 JValue.null) 42 (by simp)⟩

/-- Counterexample to C7 as stated: with the empty filter prefix, a record
lacking a `path` field has its absent `path` treated as the empty string,
which does start with the empty prefix, so the record passes the prefix
filter instead of failing it; the function then fails on the rewrite
(`KeyError` on `item["path"]`, result `none`). -/
theorem claim_C7_counterexample :
    pathStarts (JValue.obj []) "" = some true ∧
      filterItems [JValue.obj []] "" = some [JValue.obj []] ∧
      filter_and_prepend_path [JValue.obj []] "" "/r" = none :=
  ⟨rfl, rfl, rfl⟩

/-- C7 (amended): for every record lacking a `path` field and every
NON-EMPTY filter prefix, the absent `path` is treated as the empty string
and fails the prefix filter, and the record appears in no successful output
of `filter_and_prepend_path` (with the empty prefix such a record passes
the filter and the function raises instead). -/
theorem claim_C7 (gs : List (String × JValue)) (pfx : String) (hne : pfx ≠ "")
    (hnp : lookupField gs "path" = none) :
    pathStarts (JValue.obj gs) pfx = some false ∧
      ∀ (items : List JValue) (pre : String) (out : List JValue),
        filter_and_prepend_path items pfx pre = some out →
        JValue.obj gs ∉ out := by
  constructor
  · rw [pathStarts]
    simp only [dictGet, hnp, Option.getD_none, Option.some.injEq]
    show strStarts "" pfx = false
    cases hd : pfx.data with
    | nil =>
      exfalso
      apply hne
      cases pfx with
      | mk d =>
        simp only at hd
        rw [hd]
    | cons c cs =>
      show hasPfx "".data pfx.data = false
      rw [hd]
      rfl
  · intro items pre out h hmem
    obtain ⟨gs2, s, _, _, _, hoeq⟩ := filter_and_prepend_shape h _ hmem
    have hinj : gs = setFieldList gs2 "path" (JValue.str (pre ++ s)) := by
      injection hoeq
    have hcontra : lookupField gs "path" = some (JValue.str (pre ++ s)) := by
      rw [hinj, lookupField_setFieldList_self]
    rw [hnp] at hcontra
    exact absurd hcontra (by simp)

/-- Witness for the amended C7 at a concrete pathless record and non-empty
prefix. -/
theorem claim_C7_witness :
    ("/L" : String) ≠ "" ∧ lookupField [] "path" = none ∧
      (pathStarts (JValue.obj []) "/L" = some false ∧
        ∀ (items : List JValue) (pre : String) (out : List JValue),
          filter_and_prepend_path items "/L" pre = some out →
          JValue.obj [] ∉ out) :=
  ⟨by decide, rfl, claim_C7 [] "/L" (by decide) rfl⟩

/-- C8: frame property: every record of a successful filter/rewrite output
agrees with its originating input record on every field other than `path`,
and the splitting stage passes records through unchanged — each record of
the three split outputs is an element of the splitter's input list. -/
theorem claim_C8 (items out : List JValue) (pfx pre : String)
    (h : filter_and_prepend_path items pfx pre = some out) :
    (∀ o ∈ out, ∃ i, i ∈ items ∧
        ∀ k, k ≠ "path" → dictGet o k = dictGet i k) ∧
      ∀ (ts : ℚ) (rs : Nat) (x : JValue),
        (x ∈ (splitStage out ts rs).1 ∨ x ∈ (splitStage out ts rs).2.1 ∨
          x ∈ (splitStage out ts rs).2.2) → x ∈ out := by
  constructor
  · intro o ho
    obtain ⟨gs, s, hmem, hl, _, hoeq⟩ := filter_and_prepend_shape h o ho
    refine ⟨JValue.obj gs, hmem, ?_⟩
    intro k hk
    rw [hoeq]
    simp only [dictGet, Option.some.injEq]
    exact lookupField_setFieldList_ne gs "path" k (JValue.str (pre ++ s)) hk
  · intro ts rs x hx
    exact splitStage_mem hx

/-- Witness for C8 at a concrete input holding an extra field. -/
theorem claim_C8_witness :
    filter_and_prepend_path
        [JValue.obj [("path", JValue.str "/L/a"), ("text", JValue.str "w")]] "/L" "/r" =
        some [JValue.obj [("path", JValue.str "/r/L/a"), ("text", JValue.str "w")]] ∧
      ((∀ o ∈ ([JValue.obj [("path", JValue.str "/r/L/a"), ("text", JValue.str "w")]] :
            List JValue),
          ∃ i, i ∈ [JValue.obj [("path", JValue.str "/L/a"), ("text", JValue.str "w")]] ∧
            ∀ k, k ≠ "path" → dictGet o k = dictGet i k) ∧
        ∀ (ts : ℚ) (rs : Nat) (x : JValue),
          (x ∈ (splitStage [JValue.obj [("path", JValue.str "/r/L/a"),
              ("text", JValue.str "w")]] ts rs).1 ∨
            x ∈ (splitStage [JValue.obj [("path", JValue.str "/r/L/a"),
              ("text", JValue.str "w")]] ts rs).2.1 ∨
            x ∈ (splitStage [JValue.obj [("path", JValue.str "/r/L/a"),
              ("text", JValue.str "w")]] ts rs).2.2) →
          x ∈ [JValue.obj [("path", JValue.str "/r/L/a"), ("text", JValue.str "w")]]) :=
  ⟨rfl, claim_C8 _ _ "/L" "/r" rfl⟩

/-- C9: every run of `split_json_data` writes the three output files as a
group or none at all: the list of written files has length 0 on every
failure or crash path and length 3 on the success path, never 1 or 2. -/
theorem claim_C9 (ip tp ep vp : String) (fsin : InputFile) (pfx pre : String)
    (ts : ℚ) (rs : Nat) :
    (split_json_data ip tp ep vp fsin pfx pre ts rs).files.length = 0 ∨
      (split_json_data ip tp ep vp fsin pfx pre ts rs).files.length = 3 := by
  cases hc : pipelineCore fsin pfx pre ts rs <;> simp [split_json_data, hc]

/-- C10: a valid JSON input whose top-level value is not an object — here a
non-empty array and a string — falls outside the handled error conditions:
`data.get` raises an uncaught `AttributeError`, so the run crashes with no
diagnostic printed and no file written, instead of halting cleanly. -/
theorem claim_C10 :
    split_json_data "in" "t" "e" "v" (InputFile.json (JValue.arr [JValue.null]))
        "/L" "" (4/5 : ℚ) 42 = ⟨[], [], true⟩ ∧
      split_json_data "in" "t" "e" "v" (InputFile.json (JValue.str "hello"))
        "/L" "" (4/5 : ℚ) 42 = ⟨[], [], true⟩ :=
  ⟨rfl, rfl⟩

end SplitData
